import Mathlib

/-! Verification of the medical-report extraction pipeline (src/app.py).

Text is modelled as `List Char`. The pure string processing of the source
(clean_text, correct_spelling, highlight_abnormal_values' loop body,
classify_severity's response parsing, summarize_medical_report's assembly,
the API-key comparison and the document-type keyword chain) is translated
directly. The external collaborators are modelled as explicit parameters:
the LLM as a function from a prompt to an outcome (`LLMOutcome`), the
spellchecker dictionary as `List Char → Option (List Char)`, and the Python
regex engine's `re.finditer` enumeration as a function from the text to the
list of matches with their captured groups (`RMatch`); the per-match loop
body of `highlight_abnormal_values` is translated exactly. Python `float`
on the matched groups (strings of digits and dots) is modelled as exact
decimal parsing into `ℚ`: on such strings the accept/reject behaviour of
`float` coincides with the rule "at least one digit, at most one dot", and
the range comparisons are exact rather than IEEE-rounded. -/

/-- Whitespace as Python's regex class backslash-s matches it over ASCII:
these are the characters the first substitution of clean_text collapses and
that str.strip and str.split treat as separators. -/
def isPySpace (c : Char) : Bool :=
  decide (c = ' ' ∨ c = '\t' ∨ c = '\n' ∨ c = '\r' ∨ c = '\x0b' ∨ c = '\x0c')

/-- The character class kept by clean_text's second substitution
(src/app.py line 56): letters, digits, and the listed symbols. The source
class escapes a literal backslash, so the backslash is kept. -/
def allowedChar (c : Char) : Bool :=
  decide (('A' ≤ c ∧ c ≤ 'Z') ∨ ('a' ≤ c ∧ c ≤ 'z') ∨ ('0' ≤ c ∧ c ≤ '9') ∨
    c = '%' ∨ c = ':' ∨ c = '.' ∨ c = ',' ∨ c = '/' ∨ c = '\\' ∨
    c = '-' ∨ c = ' ' ∨ c = '(' ∨ c = ')')

/-- The permitted set exactly as the specification writes it, that is the
class of letters, digits, percent, colon, dot, comma, slash, hyphen, space
and parentheses: the spec's class names no backslash. Stated from the
spec's words, to be compared with `allowedChar`. -/
def specAllowedChar (c : Char) : Bool :=
  decide (('A' ≤ c ∧ c ≤ 'Z') ∨ ('a' ≤ c ∧ c ≤ 'z') ∨ ('0' ≤ c ∧ c ≤ '9') ∨
    c = '%' ∨ c = ':' ∨ c = '.' ∨ c = ',' ∨ c = '/' ∨
    c = '-' ∨ c = ' ' ∨ c = '(' ∨ c = ')')

/-- One left-to-right pass of re.sub over whitespace runs: `prev` records
whether the previous character belonged to a whitespace run already replaced
by one space. -/
def collapseAux : Bool → List Char → List Char
  | _, [] => []
  | prev, c :: cs =>
    if isPySpace c then
      if prev then collapseAux true cs else ' ' :: collapseAux true cs
    else c :: collapseAux false cs

/-- re.sub of one-or-more whitespace to a single space (src/app.py line 55). -/
def collapseWS (l : List Char) : List Char := collapseAux false l

/-- Python str.strip, leading side. -/
def stripLead (l : List Char) : List Char := l.dropWhile isPySpace

/-- Python str.strip, trailing side. -/
def stripTrail : List Char → List Char
  | [] => []
  | c :: cs =>
    let r := stripTrail cs
    if r.isEmpty && isPySpace c then [] else c :: r

/-- Python str.strip: drop whitespace from both ends. -/
def pyStrip (l : List Char) : List Char := stripTrail (stripLead l)

/-- clean_text of src/app.py lines 53-57: collapse whitespace runs to one
space, delete every character outside the permitted class, then strip. -/
def clean_text (rawText : List Char) : List Char :=
  pyStrip ((collapseWS rawText).filter allowedChar)

/-- Canonical whitespace shape: every whitespace character is the single
space, and no two stand adjacent; the flag records whether the previous
character was such a space. The output of `collapseWS` has this shape. -/
def collapsedForm : Bool → List Char → Bool
  | _, [] => true
  | prev, c :: cs =>
    if isPySpace c then decide (c = ' ') && !prev && collapsedForm true cs
    else collapsedForm false cs

/-- Outcome of the require_api_key decorator (src/app.py lines 38-47):
either the 401 rejection with its JSON error message, or control passes to
the wrapped handler. -/
inductive AuthResult where
  | reject (status : Nat) (errorMsg : String)
  | proceed
  deriving DecidableEq

/-- require_api_key of src/app.py lines 38-47: the X-API-Key header (absent
modelled as `none`) is compared by Python inequality with the configured
API_KEY (unset environment variable modelled as `none`); on inequality the
handler answers 401 with the JSON error, otherwise the request proceeds. -/
def require_api_key (apiKey clientKey : Option String) : AuthResult :=
  if clientKey ≠ apiKey then AuthResult.reject 401 "Unauthorized - Invalid API key"
  else AuthResult.proceed

/-- Python str.isalpha on a token: nonempty and all alphabetic (restricted
to ASCII letters, the alphabet OCR output is drawn from). -/
def pyIsAlpha (w : List Char) : Bool :=
  !w.isEmpty && w.all (fun c => c.isAlpha)

/-- Python str.split() with no separator: split on whitespace runs, no
empty tokens; `acc` holds the current token reversed. -/
def pySplitAux : List Char → List Char → List (List Char)
  | [], acc => if acc.isEmpty then [] else [acc.reverse]
  | c :: cs, acc =>
    if isPySpace c then
      if acc.isEmpty then pySplitAux cs [] else acc.reverse :: pySplitAux cs []
    else pySplitAux cs (c :: acc)

/-- Python str.split() with no separator. -/
def pySplit (l : List Char) : List (List Char) := pySplitAux l []

/-- The per-token step of correct_spelling's loop (src/app.py lines 68-72):
an alphabetic token is replaced by the dictionary's correction, with
Python's `or w` falling back to the token itself when the dictionary gives
None (or, by Python truthiness, an empty string); any other token is kept. -/
def spellToken (corr : List Char → Option (List Char)) (w : List Char) : List Char :=
  if pyIsAlpha w then
    match corr w with
    | some c => if c.isEmpty then w else c
    | none => w
  else w

/-- correct_spelling of src/app.py lines 63-73 with the spellchecker
dictionary as parameter `corr`: split on whitespace, correct each fully
alphabetic token, keep the rest, and rejoin with single spaces. -/
def correct_spelling (corr : List Char → Option (List Char)) (text : List Char) :
    List Char :=
  let words := pySplit text
  let corrected := words.map (fun w =>
    if pyIsAlpha w then
      match corr w with
      | some c => if c.isEmpty then w else c
      | none => w
    else w)
  List.intercalate [' '] corrected

/-- One match of the numeric-range pattern of src/app.py line 102, as
re.finditer yields it: the whole matched substring (group 0) and the four
captured groups. The value, refMin and refMax groups are strings of digits
and dots. -/
structure RMatch where
  whole : List Char
  testName : List Char
  value : List Char
  refMin : List Char
  refMax : List Char

/-- Numeric value of a digit string read in base 10. -/
def digitsVal (l : List Char) : Nat :=
  l.foldl (fun a c => 10 * a + (c.toNat - 48)) 0

/-- Exact value of a decimal string with at most one dot: the integer part,
plus the fractional digits over the matching power of ten (written as one
normalized fraction). -/
def decimalQ (s : List Char) : ℚ :=
  match s.splitOn '.' with
  | [ip] => mkRat (Int.ofNat (digitsVal ip)) 1
  | [ip, fp] =>
    mkRat (Int.ofNat (digitsVal ip * 10 ^ fp.length + digitsVal fp)) (10 ^ fp.length)
  | _ => 0

/-- Python float() restricted to the strings the groups of the pattern can
hold (digits and dots): it succeeds exactly when the string has at least
one digit and at most one dot, and the value is read as an exact decimal. -/
def pyFloat (s : List Char) : Option ℚ :=
  if !s.isEmpty && s.all (fun c => c.isDigit || c == '.') &&
      decide (s.count '.' ≤ 1) && s.any (fun c => c.isDigit)
  then some (decimalQ s) else none

/-- The red/bold out-of-range wrapper of src/app.py line 113. -/
def redSpan (w : List Char) : List Char :=
  "<span style='color:red; font-weight:bold;'>".data ++ w ++ "</span>".data

/-- The green/bold in-range wrapper of src/app.py line 115. -/
def greenSpan (w : List Char) : List Char :=
  "<span style='color:green; font-weight:bold;'>".data ++ w ++ "</span>".data

/-- The body of highlight_abnormal_values' loop for one match (src/app.py
lines 106-119): parse the three numeric groups as floats; on any failure
(ValueError) the match contributes nothing; otherwise wrap the whole match
red when the value is strictly outside the reference range, green
otherwise. -/
def matchReplacement (m : RMatch) : Option (List Char) :=
  match pyFloat m.value, pyFloat m.refMin, pyFloat m.refMax with
  | some v, some lo, some hi =>
    some (if v < lo ∨ hi < v then redSpan m.whole else greenSpan m.whole)
  | _, _, _ => none

/-- Python str.replace: replace every non-overlapping occurrence of `pat`,
scanning left to right. (The patterns handed to it here, whole regex
matches, are never empty, and the definition is the identity for an empty
pattern.) -/
def replaceAll (pat rep : List Char) : List Char → List Char
  | [] => []
  | c :: cs =>
    if h : pat ≠ [] ∧ pat.isPrefixOf (c :: cs) then
      rep ++ replaceAll pat rep ((c :: cs).drop pat.length)
    else
      c :: replaceAll pat rep cs
termination_by l => l.length
decreasing_by
  · simp only [List.length_drop, List.length_cons]
    have : pat.length ≠ 0 := fun e => h.1 (List.eq_nil_of_length_eq_zero e)
    omega
  · simp

/-- One iteration of highlight_abnormal_values' for-loop: the whole-string
substring replacement `highlighted_text.replace(match.group(0), replacement)`
of src/app.py line 117, applied when the numeric groups parse. -/
def highlightStep (acc : List Char) (m : RMatch) : List Char :=
  match matchReplacement m with
  | some r => replaceAll m.whole r acc
  | none => acc

/-- highlight_abnormal_values of src/app.py lines 100-121, with the regex
engine's match enumeration over the input text supplied by `matcher`: fold
the per-match replacement over the text, starting from the text itself. -/
def highlight_abnormal_values (matcher : List Char → List RMatch)
    (text : List Char) : List Char :=
  (matcher text).foldl highlightStep text

/-- Outcome of one call to the LLM collaborator
(model.generate_content): a response whose text attribute is read, or a
raised exception. -/
inductive LLMOutcome where
  | ok (text : List Char)
  | err

/-- The severity-classification prompt of src/app.py lines 129-142 built
around the summary text (indentation of the Python triple-quoted f-string
reproduced as written). -/
def severityPrompt (summaryText : List Char) : List Char :=
  "\n    You are a medical text reviewer.\n    Read the following medical summary carefully and determine the case severity.\n\n    Choose only one of:\n    A - Abnormal (serious findings or abnormal values)\n    B - Mild (minor variations or mild findings)\n    C - Normal (everything within healthy limits)\n\n    Respond with only the letter (A, B, or C).\n\n    SUMMARY:\n    ".data
    ++ summaryText ++ "\n    ".data

/-- classify_severity of src/app.py lines 127-157 with the LLM collaborator
as parameter: on a response, strip and uppercase its text and look for the
letter A, then B, defaulting to C; on a raised exception return C. -/
def classify_severity (llm : List Char → LLMOutcome) (summaryText : List Char) :
    String :=
  match llm (severityPrompt summaryText) with
  | LLMOutcome.err => "C"
  | LLMOutcome.ok t =>
    let classification := (pyStrip t).map Char.toUpper
    if 'A' ∈ classification then "A"
    else if 'B' ∈ classification then "B"
    else "C"

/-- The summarization prompt of src/app.py lines 168-194 built around the
cleaned report text, with the greeting substituted. -/
def summaryPrompt (cleanedText : List Char) : List Char :=
  "\n    You are an intelligent, empathetic medical summarizer.\n    Read the medical report below carefully and summarize it in 5–10 lines.\n\n    TASK:\n    - Identify serious or abnormal findings and wrap them with:\n      <span style='color:red; font-weight:bold;'>...</span>\n    - Identify reassuring or normal findings and wrap them with:\n      <span style='color:green; font-weight:bold;'>...</span>\n    - Preserve medical accuracy, do NOT guess data.\n    - Respect numeric reference ranges shown in the text.\n    - Keep tone professional and clear.\n\n    Structure:\n\n    Hello,\n\n    [Summary of findings and interpretation]\n\n    Doctor’s Advice:\n    1. [Lifestyle or diet advice]\n    2. [Rest or self-care suggestion]\n    3. [Follow-up or next steps]\n\n    MEDICAL REPORT:\n    ".data
    ++ cleanedText ++ "\n    ".data

/-- The literal fallback of src/app.py line 202, returned in place of the
LLM summary when the summarization call raises. -/
def fallbackSummary : List Char := "⚠️ Could not generate summary.".data

/-- The severity-A advisory block of src/app.py lines 212-216. -/
def adviceA : List Char :=
  "<br><br>⚠️ <b>Some findings require follow-up with your doctor.</b> These results indicate notable abnormalities or tissue pattern changes that may need further medical evaluation to rule out potential risks.".data

/-- The severity-B advisory block of src/app.py lines 218-223. -/
def adviceB : List Char :=
  "<br><br>🟡 <b>Mild variations observed.</b> Some readings are slightly outside normal limits, but they typically do not indicate serious problems. Monitoring and lifestyle adjustments may be advised.".data

/-- The severity-C advisory block of src/app.py lines 225-228. -/
def adviceC : List Char :=
  "<br><br>✅ <b>All parameters appear within normal limits.</b> No major concerns detected in this report.".data

/-- The advisory block keyed by the severity tier: A, B, else C. -/
def advisoryBlock (severity : String) : List Char :=
  if severity = "A" then adviceA
  else if severity = "B" then adviceB
  else adviceC

/-- summarize_medical_report of src/app.py lines 163-231 with the LLM and
the regex match enumeration as parameters (docName, like the source's
doc_name, is accepted and unused): call the LLM on the summarization
prompt, on success strip the response text, on a raised exception use the
literal fallback; then highlight numeric abnormalities, classify severity
on the highlighted summary, and append the advisory block of the tier. -/
def summarize_medical_report (llm : List Char → LLMOutcome)
    (matcher : List Char → List RMatch) (cleanedText : List Char)
    (docName : Option (List Char)) : List Char :=
  let summary0 :=
    match llm (summaryPrompt cleanedText) with
    | LLMOutcome.ok t => pyStrip t
    | LLMOutcome.err => fallbackSummary
  let summary1 := highlight_abnormal_values matcher summary0
  let severity := classify_severity llm summary1
  if severity = "A" then summary1 ++ adviceA
  else if severity = "B" then summary1 ++ adviceB
  else summary1 ++ adviceC

/-- Python str.lower over the cleaned text. -/
def pyLower (l : List Char) : List Char := l.map Char.toLower

/-- Raw substring containment, as Python's `in` on strings: `pat` occurs as
a contiguous run somewhere in the list. -/
def containsSub (pat : List Char) : List Char → Bool
  | [] => pat.isEmpty
  | c :: cs => pat.isPrefixOf (c :: cs) || containsSub pat cs

/-- The document-type keyword chain of process_documents (src/app.py lines
258-266): raw substring tests on the lowercased cleaned text, first
matching branch wins. -/
def detectDocName (cleaned : List Char) : String :=
  let lowered := pyLower cleaned
  if containsSub "histopathology".data lowered ||
      containsSub "endometrial polyp".data lowered then
    "Histopathology Report"
  else if containsSub "cytology".data lowered || containsSub "pap".data lowered then
    "PAP Test Report"
  else if containsSub "haematology".data lowered ||
      containsSub "blood count".data lowered then
    "Blood Test Report"
  else "General Medical Report"

/-- C2 counterexample: with the configured key unset and the X-API-Key
header absent, the comparison is None == None and the handler proceeds, so
a request IS authenticated while the claim demands failure. -/
theorem C2_counterexample :
    require_api_key none none = AuthResult.proceed ∧
    require_api_key none none ≠ AuthResult.reject 401 "Unauthorized - Invalid API key" := by
  constructor
  · rfl
  · intro h
    exact absurd h (by decide)

/-- C2 (amended): authentication fails with the 401 JSON error exactly when
the request's X-API-Key header value (None when absent) differs from the
configured key (None when unset); in particular, when the key is unset a
request that also omits the header is authenticated. -/
theorem C2_auth_mismatch_iff :
    ∀ apiKey clientKey : Option String,
      require_api_key apiKey clientKey =
          AuthResult.reject 401 "Unauthorized - Invalid API key" ↔
        clientKey ≠ apiKey := by
  intro apiKey clientKey
  by_cases h : clientKey = apiKey
  · simp [require_api_key, h]
  · simp [require_api_key, h]

/-- C10: the document-type branch for PAP tests fires on a raw substring
test of the lowercased cleaned text, so any text containing "pap" anywhere
(also inside a longer word) and neither first-branch keyword is labelled
"PAP Test Report". -/
theorem C10_pap_raw_substring (cleaned : List Char)
    (hp : containsSub ("pap".data) (pyLower cleaned) = true)
    (hh : containsSub ("histopathology".data) (pyLower cleaned) = false)
    (he : containsSub ("endometrial polyp".data) (pyLower cleaned) = false) :
    detectDocName cleaned = "PAP Test Report" := by
  simp [detectDocName, hp, hh, he]

/-- C10 witness: "Papilloma screening" contains "pap" only inside the word
"papilloma" and is still classified as a PAP test report. -/
theorem C10_witness :
    detectDocName ("Papilloma screening".data) = "PAP Test Report" :=
  C10_pap_raw_substring ("Papilloma screening".data) (by decide) (by decide)
    (by decide)

/-- C4: for every LLM behaviour the severity classifier returns one of the
three tier letters, and whenever the LLM call raises it returns C without
propagating the error. -/
theorem C4_classify_severity_total :
    ∀ (llm : List Char → LLMOutcome) (s : List Char),
      (classify_severity llm s = "A" ∨ classify_severity llm s = "B" ∨
        classify_severity llm s = "C") ∧
      (llm (severityPrompt s) = LLMOutcome.err → classify_severity llm s = "C") := by
  intro llm s
  constructor
  · cases h : llm (severityPrompt s) with
    | err => right; right; simp [classify_severity, h]
    | ok t =>
      simp only [classify_severity, h]
      split_ifs <;> simp
  · intro h
    simp [classify_severity, h]

/-- C5: the summarizer's output is always the highlighted summary followed
by exactly one of the three fixed advisory blocks selected by the severity
tier, where the summary is the stripped LLM text on success and the literal
fallback string when the summarization call raises. -/
theorem C5_summarizer_structure :
    ∀ (llm : List Char → LLMOutcome) (matcher : List Char → List RMatch)
      (cleanedText : List Char) (docName : Option (List Char)),
      ∃ base : List Char,
        ((llm (summaryPrompt cleanedText) = LLMOutcome.err ∧
            base = fallbackSummary) ∨
          (∃ t, llm (summaryPrompt cleanedText) = LLMOutcome.ok t ∧
            base = pyStrip t)) ∧
        summarize_medical_report llm matcher cleanedText docName =
          highlight_abnormal_values matcher base ++
            advisoryBlock
              (classify_severity llm (highlight_abnormal_values matcher base)) ∧
        (advisoryBlock
            (classify_severity llm (highlight_abnormal_values matcher base)) =
              adviceA ∨
          advisoryBlock
            (classify_severity llm (highlight_abnormal_values matcher base)) =
              adviceB ∨
          advisoryBlock
            (classify_severity llm (highlight_abnormal_values matcher base)) =
              adviceC) := by
  intro llm matcher cleanedText docName
  cases h : llm (summaryPrompt cleanedText) with
  | ok t =>
    refine ⟨pyStrip t, Or.inr ⟨t, rfl, rfl⟩, ?_, ?_⟩
    · simp only [summarize_medical_report, h, advisoryBlock]
      split_ifs <;> rfl
    · simp only [advisoryBlock]
      split_ifs <;> simp
  | err =>
    refine ⟨fallbackSummary, Or.inl ⟨rfl, rfl⟩, ?_, ?_⟩
    · simp only [summarize_medical_report, h, advisoryBlock]
      split_ifs <;> rfl
    · simp only [advisoryBlock]
      split_ifs <;> simp

/-- C8: the spelling corrector maps each whitespace token through the
per-token step and rejoins with single spaces; the step replaces an
alphabetic token by the dictionary's correction, falls back to the token
itself when the dictionary offers none, and keeps every non-alphabetic
token unchanged. -/
theorem C8_corrector_tokens :
    ∀ (corr : List Char → Option (List Char)) (text : List Char),
      correct_spelling corr text =
        List.intercalate [' '] ((pySplit text).map (spellToken corr)) ∧
      (∀ w c, pyIsAlpha w = true → corr w = some c → c ≠ [] →
        spellToken corr w = c) ∧
      (∀ w, pyIsAlpha w = true → corr w = none → spellToken corr w = w) ∧
      (∀ w, pyIsAlpha w = false → spellToken corr w = w) := by
  intro corr text
  refine ⟨rfl, ?_, ?_, ?_⟩
  · intro w c hw hc hne
    have hemp : c.isEmpty = false := by
      cases c with
      | nil => exact absurd rfl hne
      | cons x xs => rfl
    simp [spellToken, hw, hc, hemp]
  · intro w hw hc
    simp [spellToken, hw, hc]
  · intro w hw
    simp [spellToken, hw]

theorem replaceAll_nil (pat rep : List Char) : replaceAll pat rep [] = [] := by
  simp [replaceAll]

theorem replaceAll_cons_neg {pat : List Char} (rep : List Char) {c : Char}
    {cs : List Char} (h : ¬(pat ≠ [] ∧ pat.isPrefixOf (c :: cs))) :
    replaceAll pat rep (c :: cs) = c :: replaceAll pat rep cs := by
  rw [replaceAll]
  simp only [dif_neg h]

theorem isPrefixOf_append_self (l t : List Char) : l.isPrefixOf (l ++ t) = true := by
  induction l with
  | nil => simp [List.isPrefixOf]
  | cons c cs ih => simp [List.isPrefixOf, ih]

theorem replaceAll_at_head {pat : List Char} (hne : pat ≠ []) (rep s : List Char) :
    replaceAll pat rep (pat ++ s) = rep ++ replaceAll pat rep s := by
  obtain ⟨p, pt, rfl⟩ : ∃ p pt, pat = p :: pt := by
    cases pat with
    | nil => exact absurd rfl hne
    | cons p pt => exact ⟨p, pt, rfl⟩
  rw [show (p :: pt) ++ s = p :: (pt ++ s) from rfl, replaceAll]
  have hpre : (p :: pt).isPrefixOf (p :: (pt ++ s)) = true :=
    isPrefixOf_append_self (p :: pt) s
  rw [dif_pos ⟨hne, hpre⟩]
  congr 1
  exact congrArg _ (List.drop_left (p :: pt) s)

theorem replaceAll_skip {pat : List Char} {h0 : Char} (hh : pat.head? = some h0)
    (rep : List Char) {a : List Char} (ha : h0 ∉ a) (rest : List Char) :
    replaceAll pat rep (a ++ rest) = a ++ replaceAll pat rep rest := by
  induction a with
  | nil => simp
  | cons c a' ih =>
    have hne : h0 ≠ c := by
      intro e
      exact ha (e ▸ List.mem_cons_self c a')
    have hcond : ¬((pat ≠ []) ∧ pat.isPrefixOf (c :: (a' ++ rest))) := by
      rintro ⟨hpn, hpre⟩
      cases pat with
      | nil => exact hpn rfl
      | cons p pt =>
        have hp : p = h0 := by
          simpa using hh
        simp only [List.isPrefixOf, Bool.and_eq_true, beq_iff_eq] at hpre
        exact hne (hp ▸ hpre.1)
    rw [show (c :: a') ++ rest = c :: (a' ++ rest) from rfl,
      replaceAll_cons_neg rep hcond,
      ih (fun hm => ha (List.mem_cons_of_mem c hm))]
    rfl

theorem replaceAll_no_occurrence {pat : List Char} {h0 : Char}
    (hh : pat.head? = some h0) (rep : List Char) {a : List Char} (ha : h0 ∉ a) :
    replaceAll pat rep a = a := by
  have := replaceAll_skip hh rep ha []
  simpa [replaceAll_nil] using this

/-- C7: one iteration of the highlighter's loop rewrites, by whole-string
substring replacement, every occurrence of the matched substring in the
current text at once, not only the span the regex engine reported: here a
text holding the match twice has both occurrences wrapped by the single
replace call. (The side conditions say the first character of the match
does not occur in the surrounding pieces, so the pattern's occurrences are
exactly the two shown.) -/
theorem C7_replace_rewrites_all_occurrences :
    ∀ (m : RMatch) (rep : List Char) (h0 : Char) (a b c : List Char),
      matchReplacement m = some rep → m.whole.head? = some h0 →
      h0 ∉ a → h0 ∉ b → h0 ∉ c →
      highlightStep (a ++ (m.whole ++ (b ++ (m.whole ++ c)))) m =
        a ++ (rep ++ (b ++ (rep ++ c))) := by
  intro m rep h0 a b c hm hh ha hb hc
  have hne : m.whole ≠ [] := by
    intro e
    rw [e] at hh
    exact Option.noConfusion hh
  unfold highlightStep
  rw [hm]
  show replaceAll m.whole rep (a ++ (m.whole ++ (b ++ (m.whole ++ c)))) =
    a ++ (rep ++ (b ++ (rep ++ c)))
  rw [replaceAll_skip hh rep ha, replaceAll_at_head hne,
    replaceAll_skip hh rep hb, replaceAll_at_head hne,
    replaceAll_no_occurrence hh rep hc]

/-- C7 witness: a single replace step for the out-of-range match
"Hb 9 (2 - 3)" rewrites both of its occurrences in the running text. -/
theorem C7_witness :
    highlightStep
        ("x: ".data ++ ("Hb 9 (2 - 3)".data ++ (" and ".data ++
          ("Hb 9 (2 - 3)".data ++ " done".data))))
        (RMatch.mk ("Hb 9 (2 - 3)".data) ("Hb".data) ("9".data) ("2".data)
          ("3".data)) =
      "x: ".data ++ (redSpan ("Hb 9 (2 - 3)".data) ++ (" and ".data ++
        (redSpan ("Hb 9 (2 - 3)".data) ++ " done".data))) :=
  C7_replace_rewrites_all_occurrences
    (RMatch.mk ("Hb 9 (2 - 3)".data) ("Hb".data) ("9".data) ("2".data)
      ("3".data))
    (redSpan ("Hb 9 (2 - 3)".data)) 'H' ("x: ".data) (" and ".data)
    (" done".data) (by decide) (by decide) (by decide) (by decide) (by decide)

/-- C3: for a single reported match, when the three numeric groups parse
the whole matched span is substituted wrapped in the green/bold marker if
the value lies in the inclusive reference range and in the red/bold marker
if it lies strictly outside; when any group fails to parse the text is left
untouched. -/
theorem C3_highlighter_range_marking :
    ∀ (m : RMatch) (text : List Char),
      (∀ v lo hi : ℚ, pyFloat m.value = some v → pyFloat m.refMin = some lo →
        pyFloat m.refMax = some hi →
        highlight_abnormal_values (fun _ => [m]) text =
          replaceAll m.whole
            (if lo ≤ v ∧ v ≤ hi then greenSpan m.whole else redSpan m.whole)
            text) ∧
      (pyFloat m.value = none ∨ pyFloat m.refMin = none ∨ pyFloat m.refMax = none →
        highlight_abnormal_values (fun _ => [m]) text = text) := by
  intro m text
  constructor
  · intro v lo hi hv hlo hhi
    show highlightStep text m = _
    unfold highlightStep matchReplacement
    rw [hv, hlo, hhi]
    show replaceAll m.whole
        (if v < lo ∨ hi < v then redSpan m.whole else greenSpan m.whole) text = _
    by_cases hin : lo ≤ v ∧ v ≤ hi
    · have hout : ¬(v < lo ∨ hi < v) := by
        push_neg
        exact ⟨hin.1, hin.2⟩
      rw [if_neg hout, if_pos hin]
    · have hout : v < lo ∨ hi < v := by
        rcases not_and_or.mp hin with h | h
        · exact Or.inl (not_le.mp h)
        · exact Or.inr (not_le.mp h)
      rw [if_pos hout, if_neg hin]
  · intro h
    show highlightStep text m = text
    unfold highlightStep matchReplacement
    rcases h with h | h | h
    · rw [h]
    · rw [h]
      cases pyFloat m.value <;> cases pyFloat m.refMax <;> rfl
    · rw [h]
      cases pyFloat m.value <;> cases pyFloat m.refMin <;> rfl

theorem mem_collapseAux {c : Char} :
    ∀ {l : List Char} {b : Bool}, c ∈ collapseAux b l → c ∈ l ∨ c = ' ' := by
  intro l
  induction l with
  | nil => intro b h; exact absurd h (List.not_mem_nil c)
  | cons a as ih =>
    intro b h
    by_cases ha : isPySpace a = true
    · rw [collapseAux, if_pos ha] at h
      cases b with
      | true =>
        rcases ih h with hm | he
        · exact Or.inl (List.mem_cons_of_mem a hm)
        · exact Or.inr he
      | false =>
        rcases List.mem_cons.mp h with he | hm
        · exact Or.inr he
        · rcases ih hm with hm' | he'
          · exact Or.inl (List.mem_cons_of_mem a hm')
          · exact Or.inr he'
    · rw [collapseAux, if_neg ha] at h
      rcases List.mem_cons.mp h with he | hm
      · exact Or.inl (he ▸ List.mem_cons_self a as)
      · rcases ih hm with hm' | he'
        · exact Or.inl (List.mem_cons_of_mem a hm')
        · exact Or.inr he'

theorem mem_stripTrail {c : Char} :
    ∀ {l : List Char}, c ∈ stripTrail l → c ∈ l := by
  intro l
  induction l with
  | nil => intro h; exact h
  | cons a as ih =>
    intro h
    rw [stripTrail] at h
    by_cases hcond : ((stripTrail as).isEmpty && isPySpace a) = true
    · rw [if_pos hcond] at h
      exact absurd h (List.not_mem_nil c)
    · rw [if_neg hcond] at h
      rcases List.mem_cons.mp h with he | hm
      · exact he ▸ List.mem_cons_self a as
      · exact List.mem_cons_of_mem a (ih hm)

theorem mem_pyStrip {c : Char} {l : List Char} (h : c ∈ pyStrip l) : c ∈ l :=
  (List.dropWhile_sublist _).subset (mem_stripTrail h)

theorem count_collapseAux {c : Char} (hc : isPySpace c = false) :
    ∀ (l : List Char) (b : Bool), (collapseAux b l).count c = l.count c := by
  have hcs : c ≠ ' ' := by
    intro e
    rw [e] at hc
    exact Bool.noConfusion ((by decide : isPySpace ' ' = true) ▸ hc)
  intro l
  induction l with
  | nil => intro b; rfl
  | cons a as ih =>
    intro b
    by_cases ha : isPySpace a = true
    · have hca : c ≠ a := by
        intro e
        rw [← e] at ha
        exact Bool.noConfusion (hc ▸ ha)
      have h1 : collapseAux true (a :: as) = collapseAux true as := by
        simp [collapseAux, ha]
      have h2 : collapseAux false (a :: as) = ' ' :: collapseAux true as := by
        simp [collapseAux, ha]
      cases b with
      | true => rw [h1, ih true, List.count_cons_of_ne hca]
      | false =>
        rw [h2, List.count_cons_of_ne hcs, ih true, List.count_cons_of_ne hca]
    · have ha' : isPySpace a = false := Bool.eq_false_iff.mpr ha
      rw [collapseAux, if_neg ha]
      by_cases hca : c = a
      · subst hca
        rw [List.count_cons_self, List.count_cons_self, ih false]
      · rw [List.count_cons_of_ne hca, List.count_cons_of_ne hca, ih false]

theorem count_stripLead {c : Char} (hc : isPySpace c = false) :
    ∀ l : List Char, (stripLead l).count c = l.count c := by
  intro l
  induction l with
  | nil => rfl
  | cons a as ih =>
    by_cases ha : isPySpace a = true
    · have hca : c ≠ a := by
        intro e
        rw [← e] at ha
        exact Bool.noConfusion (hc ▸ ha)
      unfold stripLead at ih ⊢
      rw [List.dropWhile_cons, if_pos ha, ih, List.count_cons_of_ne hca]
    · have ha' : isPySpace a = false := Bool.eq_false_iff.mpr ha
      unfold stripLead
      rw [List.dropWhile_cons, if_neg ha]

theorem count_stripTrail {c : Char} (hc : isPySpace c = false) :
    ∀ l : List Char, (stripTrail l).count c = l.count c := by
  intro l
  induction l with
  | nil => rfl
  | cons a as ih =>
    rw [stripTrail]
    by_cases hcond : ((stripTrail as).isEmpty && isPySpace a) = true
    · have hablank := (Bool.and_eq_true _ _).mp hcond
      have hra : stripTrail as = [] := List.isEmpty_iff.mp hablank.1
      have hca : c ≠ a := by
        intro e
        rw [← e] at hablank
        exact Bool.noConfusion (hc ▸ hablank.2)
      rw [if_pos hcond, List.count_cons_of_ne hca, ← ih, hra]
    · rw [if_neg hcond]
      by_cases hca : c = a
      · subst hca
        rw [List.count_cons_self, List.count_cons_self, ih]
      · rw [List.count_cons_of_ne hca, List.count_cons_of_ne hca, ih]

theorem collapsedForm_collapseAux :
    ∀ (l : List Char) (b : Bool), collapsedForm b (collapseAux b l) = true := by
  intro l
  induction l with
  | nil => intro b; rfl
  | cons a as ih =>
    intro b
    by_cases ha : isPySpace a = true
    · have h1 : collapseAux true (a :: as) = collapseAux true as := by
        simp [collapseAux, ha]
      have h2 : collapseAux false (a :: as) = ' ' :: collapseAux true as := by
        simp [collapseAux, ha]
      cases b with
      | true => rw [h1]; exact ih true
      | false =>
        rw [h2]
        have : collapsedForm false (' ' :: collapseAux true as) =
            collapsedForm true (collapseAux true as) := by
          simp [collapsedForm, isPySpace]
        rw [this]
        exact ih true
    · have ha' : isPySpace a = false := Bool.eq_false_iff.mpr ha
      have h3 : collapseAux b (a :: as) = a :: collapseAux false as := by
        simp [collapseAux, ha']
      rw [h3]
      have : collapsedForm b (a :: collapseAux false as) =
          collapsedForm false (collapseAux false as) := by
        simp [collapsedForm, ha']
      rw [this]
      exact ih false

theorem collapseAux_of_collapsedForm :
    ∀ (l : List Char) (b : Bool), collapsedForm b l = true → collapseAux b l = l := by
  intro l
  induction l with
  | nil => intro b _; rfl
  | cons a as ih =>
    intro b h
    by_cases ha : isPySpace a = true
    · rw [collapsedForm, if_pos ha] at h
      simp only [Bool.and_eq_true, decide_eq_true_eq, Bool.not_eq_true'] at h
      obtain ⟨⟨hsp, hb⟩, hrest⟩ := h
      subst hb
      have h2 : collapseAux false (a :: as) = ' ' :: collapseAux true as := by
        simp [collapseAux, ha]
      rw [h2, ih true hrest, hsp]
    · have ha' : isPySpace a = false := Bool.eq_false_iff.mpr ha
      rw [collapsedForm, if_neg ha] at h
      have h3 : collapseAux b (a :: as) = a :: collapseAux false as := by
        simp [collapseAux, ha']
      rw [h3, ih false h]

theorem collapsedForm_stripLead {l : List Char}
    (h : collapsedForm false l = true) :
    collapsedForm false (stripLead l) = true := by
  cases l with
  | nil => exact h
  | cons a as =>
    by_cases ha : isPySpace a = true
    · rw [collapsedForm, if_pos ha] at h
      simp only [Bool.and_eq_true, decide_eq_true_eq, Bool.not_eq_true'] at h
      obtain ⟨⟨hsp, _⟩, hrest⟩ := h
      unfold stripLead
      rw [List.dropWhile_cons, if_pos ha]
      cases as with
      | nil => rfl
      | cons a' as' =>
        cases hb : isPySpace a' with
        | true =>
          rw [collapsedForm, if_pos hb] at hrest
          simp at hrest
        | false =>
          have hb' : ¬(isPySpace a' = true) := by simp [hb]
          rw [List.dropWhile_cons, if_neg hb']
          rw [collapsedForm, if_neg hb'] at hrest
          rw [collapsedForm, if_neg hb']
          exact hrest
    · have ha' : ¬(isPySpace a = true) := ha
      unfold stripLead
      rw [List.dropWhile_cons, if_neg ha']
      rw [collapsedForm, if_neg ha'] at h
      rw [collapsedForm, if_neg ha']
      exact h

theorem collapsedForm_stripTrail :
    ∀ (l : List Char) (b : Bool), collapsedForm b l = true →
      collapsedForm b (stripTrail l) = true := by
  intro l
  induction l with
  | nil => intro b h; exact h
  | cons a as ih =>
    intro b h
    rw [stripTrail]
    by_cases hcond : ((stripTrail as).isEmpty && isPySpace a) = true
    · rw [if_pos hcond]; rfl
    · rw [if_neg hcond]
      by_cases ha : isPySpace a = true
      · rw [collapsedForm, if_pos ha] at h
        simp only [Bool.and_eq_true, decide_eq_true_eq, Bool.not_eq_true'] at h
        obtain ⟨⟨hsp, hb⟩, hrest⟩ := h
        subst hb
        rw [collapsedForm, if_pos ha]
        simp only [Bool.and_eq_true, decide_eq_true_eq, Bool.not_eq_true']
        exact ⟨⟨hsp, trivial⟩, ih true hrest⟩
      · have ha' : ¬(isPySpace a = true) := ha
        rw [collapsedForm, if_neg ha'] at h
        rw [collapsedForm, if_neg ha']
        exact ih false h

theorem stripLead_head {l : List Char} {c : Char} {cs : List Char}
    (h : stripLead l = c :: cs) : isPySpace c = false := by
  induction l with
  | nil => exact absurd h (by simp [stripLead])
  | cons a as ih =>
    by_cases ha : isPySpace a = true
    · unfold stripLead at h ih
      rw [List.dropWhile_cons, if_pos ha] at h
      exact ih h
    · have ha' : ¬(isPySpace a = true) := ha
      unfold stripLead at h
      rw [List.dropWhile_cons, if_neg ha'] at h
      cases h
      exact Bool.eq_false_iff.mpr ha

theorem stripLead_of_head {c : Char} {cs : List Char}
    (h : isPySpace c = false) : stripLead (c :: cs) = c :: cs := by
  unfold stripLead
  rw [List.dropWhile_cons, if_neg (by simp [h])]

theorem stripLead_stripLead (l : List Char) :
    stripLead (stripLead l) = stripLead l := by
  cases hl : stripLead l with
  | nil => simp [stripLead]
  | cons c cs => exact stripLead_of_head (stripLead_head hl)

theorem stripTrail_cons_shape (a : Char) (as : List Char) :
    stripTrail (a :: as) = [] ∨ stripTrail (a :: as) = a :: stripTrail as := by
  rw [stripTrail]
  by_cases hcond : ((stripTrail as).isEmpty && isPySpace a) = true
  · exact Or.inl (if_pos hcond)
  · exact Or.inr (if_neg hcond)

theorem stripTrail_stripTrail : ∀ l : List Char,
    stripTrail (stripTrail l) = stripTrail l := by
  intro l
  induction l with
  | nil => rfl
  | cons a as ih =>
    rw [stripTrail]
    by_cases hcond : ((stripTrail as).isEmpty && isPySpace a) = true
    · rw [if_pos hcond]; rfl
    · rw [if_neg hcond]
      rw [stripTrail, ih, if_neg hcond]

theorem pyStrip_pyStrip (l : List Char) : pyStrip (pyStrip l) = pyStrip l := by
  unfold pyStrip
  cases hl : stripLead l with
  | nil => simp [stripTrail, stripLead]
  | cons c cs =>
    have hc : isPySpace c = false := stripLead_head hl
    rcases stripTrail_cons_shape c cs with hs | hs
    · rw [hs]
      simp [stripLead, stripTrail]
    · rw [hs, stripLead_of_head hc, ← hs, stripTrail_stripTrail]

/-- C1 counterexample: for the input made of a space, a backslash and the
letter a, the normalizer's output keeps the backslash, a character outside
the permitted set as the spec writes it, and the leading whitespace run
appears as no space at all (the output holds no space), against the claim
that every run appears as exactly one space. -/
theorem C1_counterexample :
    (clean_text (" \\a".data)).all specAllowedChar = false ∧
    (clean_text (" \\a".data)).count ' ' = 0 := by
  constructor
  · decide
  · decide

/-- C1 (amended): every character of the normalizer's output lies in the
character class the code keeps (the spec's set plus the backslash);
whitespace runs are collapsed to single spaces before the removal of
disallowed characters (the collapsed text has only single spaces, no two
adjacent), and the final strip leaves no leading or trailing whitespace
(the output is a fixed point of stripping); empty input yields empty
output. -/
theorem C1_normalizer_charset_and_collapse :
    ∀ rawText : List Char,
      (clean_text rawText).all allowedChar = true ∧
      collapsedForm false (collapseWS rawText) = true ∧
      pyStrip (clean_text rawText) = clean_text rawText ∧
      clean_text [] = [] := by
  intro rawText
  refine ⟨?_, collapsedForm_collapseAux rawText false, pyStrip_pyStrip _, rfl⟩
  rw [List.all_eq_true]
  intro c hc
  have hmem : c ∈ (collapseWS rawText).filter allowedChar := mem_pyStrip hc
  exact (List.mem_filter.mp hmem).2

/-- C9: every backslash of the input survives normalization: the backslash
count of clean_text's output equals that of its input (the backslash is in
the kept class, is not whitespace, and is never stripped). -/
theorem C9_backslash_survives :
    ∀ rawText : List Char,
      (clean_text rawText).count '\\' = rawText.count '\\' := by
  intro rawText
  have hbs : isPySpace '\\' = false := by decide
  have hal : allowedChar '\\' = true := by decide
  unfold clean_text pyStrip collapseWS
  rw [count_stripTrail hbs, count_stripLead hbs, List.count_filter hal,
    count_collapseAux hbs rawText false]

/-- C6 counterexample: clean_text is not idempotent. For "a # b" the first
pass collapses each whitespace run to one space and then deletes the
hash, leaving two adjacent spaces; the second pass collapses those two
spaces, so the outputs differ. -/
theorem C6_counterexample :
    clean_text (clean_text ("a # b".data)) ≠ clean_text ("a # b".data) := by
  decide

/-- C6 (amended): clean_text is idempotent on every input all of whose
characters already lie in the kept character class (then no deletion can
put two spaces side by side, and the claim's fixed-point property holds);
on general inputs only the second application is a fixed point. -/
theorem C6_idempotent_on_allowed (s : List Char)
    (h : s.all allowedChar = true) :
    clean_text (clean_text s) = clean_text s := by
  have hall : ∀ c ∈ collapseWS s, allowedChar c = true := by
    intro c hc
    rcases mem_collapseAux hc with hm | he
    · exact List.all_eq_true.mp h c hm
    · rw [he]; decide
  have hfil : (collapseWS s).filter allowedChar = collapseWS s :=
    List.filter_eq_self.mpr hall
  have hclean : clean_text s = pyStrip (collapseWS s) := by
    unfold clean_text
    rw [hfil]
  have hform : collapsedForm false (pyStrip (collapseWS s)) = true := by
    unfold pyStrip
    exact collapsedForm_stripTrail _ false
      (collapsedForm_stripLead (collapsedForm_collapseAux s false))
  have hcoll : collapseWS (pyStrip (collapseWS s)) = pyStrip (collapseWS s) :=
    collapseAux_of_collapsedForm _ false hform
  have hallt : ∀ c ∈ pyStrip (collapseWS s), allowedChar c = true :=
    fun c hc => hall c (mem_pyStrip hc)
  calc clean_text (clean_text s) = clean_text (pyStrip (collapseWS s)) := by
        rw [hclean]
    _ = pyStrip ((collapseWS (pyStrip (collapseWS s))).filter allowedChar) := rfl
    _ = pyStrip ((pyStrip (collapseWS s)).filter allowedChar) := by rw [hcoll]
    _ = pyStrip (pyStrip (collapseWS s)) := by
        rw [List.filter_eq_self.mpr hallt]
    _ = pyStrip (collapseWS s) := pyStrip_pyStrip _
    _ = clean_text s := hclean.symm

/-- C6 witness: a concrete all-allowed input on which the amended
idempotence theorem applies. -/
theorem C6_witness :
    clean_text (clean_text ("Hb: 9.0 (12.0 - 15.0)".data)) =
      clean_text ("Hb: 9.0 (12.0 - 15.0)".data) :=
  C6_idempotent_on_allowed ("Hb: 9.0 (12.0 - 15.0)".data) (by decide)
